import Mathlib

/-!
Verification of the SkeletonKey tracer: a shallow embedding of the
varint codec, the event serialization (src/skeletonkey.cpp), the trace
decoder (src/reader.cpp) and the interposition wrappers, together with
proofs of the specified properties.

Bytes are modelled as `Nat` values `< 256`; 64-bit machine integers as
`Nat` with explicit `% 2 ^ 64` where the C++ semantics wraps.
-/

/-! ## Varint encoder (`VarIntWriter::encodeVarInt`, skeletonkey.cpp:78-86)

The C++ is a do-while loop:
```
do { uint8_t byte = value & 0x7F; value >>= 7;
     if (value) byte |= 0x80; buffer.push_back(byte); } while (value);
```
The loop runs once per base-128 digit, so at most `value + 1` iterations;
`encodeVarIntGo` makes that bound an explicit structural fuel so that the
definition is computable by the kernel.  The fuel branch `fuel = 0` is
unreachable (`encodeVarInt_eq` recovers the fuel-free recursion).  -/

def encodeVarIntGo : Nat → Nat → List Nat
  | 0, _ => []
  | fuel + 1, value =>
    if value >>> 7 = 0 then [value &&& 127]
    else ((value &&& 127) ||| 128) :: encodeVarIntGo fuel (value >>> 7)

def encodeVarInt (value : Nat) : List Nat :=
  encodeVarIntGo (value + 1) value

/-! ## Varint decoder (`VarIntReader::readVarInt`, reader.cpp:66-79)

```
uint64_t result = 0; int shift = 0;
while (pos_ < buffer_.size()) {
  uint8_t byte = buffer_[pos_++];
  result |= static_cast<uint64_t>(byte & 0x7F) << shift;
  if ((byte & 0x80) == 0) break;
  shift += 7;
}
return result;
```
The buffer suffix starting at `pos_` is passed as a list; the `<< shift`
on `uint64_t` wraps modulo `2 ^ 64` (for `shift ≥ 64` the C++ shift is
undefined behaviour; no input produced by the encoder reaches it). -/

def readVarIntGo : List Nat → Nat → Nat → Nat × List Nat
  | [], _, result => (result, [])
  | b :: rest, shift, result =>
    if b &&& 128 = 0 then (result ||| (((b &&& 127) <<< shift) % 2 ^ 64), rest)
    else readVarIntGo rest (shift + 7) (result ||| (((b &&& 127) <<< shift) % 2 ^ 64))

def readVarInt (buf : List Nat) : Nat × List Nat :=
  readVarIntGo buf 0 0

/-! ## Basic bit arithmetic -/

theorem lor_mul_two_pow : ∀ (s a b : Nat), a < 2 ^ s → a ||| b * 2 ^ s = a + b * 2 ^ s := by
  intro s
  induction s with
  | zero =>
    intro a b h
    have : a = 0 := by omega
    subst this
    simp
  | succ s ih =>
    intro a b h
    have h2 : (2 : Nat) ^ (s + 1) = 2 ^ s * 2 := pow_succ 2 s
    have ha : Nat.bit (a.testBit 0) (a >>> 1) = a := Nat.bit_testBit_zero_shiftRight_one a
    have hbf : Nat.bit false (b * 2 ^ s) = b * 2 ^ (s + 1) := by
      rw [Nat.bit_val, h2]
      simp only [Bool.toNat_false, Nat.add_zero]
      ring
    have h1 : a >>> 1 < 2 ^ s := by
      have hs : a >>> 1 = a / 2 := by
        rw [Nat.shiftRight_eq_div_pow]
      omega
    have key := Nat.lor_bit (a.testBit 0) (a >>> 1) false (b * 2 ^ s)
    rw [ha, hbf, Bool.or_false, ih (a >>> 1) b h1] at key
    have hv := Nat.bit_val (a.testBit 0) (a >>> 1 + b * 2 ^ s)
    have hv2 := Nat.bit_val (a.testBit 0) (a >>> 1)
    rw [ha] at hv2
    have hX : b * 2 ^ (s + 1) = 2 * (b * 2 ^ s) := by
      rw [h2]
      ring
    rw [key, hv]
    omega

theorem and_127_eq_mod (x : Nat) : x &&& 127 = x % 128 :=
  Nat.and_pow_two_sub_one_eq_mod x 7

theorem shiftRight_7_eq_div (x : Nat) : x >>> 7 = x / 128 :=
  Nat.shiftRight_eq_div_pow x 7

theorem shiftRight7_lt {value : Nat} (h : value >>> 7 ≠ 0) : value >>> 7 < value := by
  rw [shiftRight_7_eq_div] at *
  exact Nat.div_lt_self (by omega) (by norm_num)

theorem and_128_eq_zero {x : Nat} (h : x < 128) : x &&& 128 = 0 := by
  have h7 : (128 : Nat) = 2 ^ 7 := by norm_num
  rw [h7, Nat.and_two_pow, Nat.testBit_lt_two_pow (by omega)]
  simp

theorem lor_128_eq_add {x : Nat} (h : x < 128) : x ||| 128 = x + 128 := by
  have := lor_mul_two_pow 7 x 1 (by omega)
  simpa using this

theorem add_128_and_128 {x : Nat} (h : x < 128) : (x + 128) &&& 128 = 128 := by
  have h7 : (128 : Nat) = 2 ^ 7 := by norm_num
  rw [h7, Nat.and_two_pow]
  have hdiv : (x + 2 ^ 7) / 2 ^ 7 = 1 := by
    norm_num
    omega
  have ht : (x + 2 ^ 7).testBit 7 = true := by
    rw [Nat.testBit_to_div_mod, hdiv]
    decide
  rw [ht]
  simp

/-! ## Varint round-trip -/

theorem encodeVarIntGo_fuel :
    ∀ (value : Nat), ∀ (f f' : Nat), value < f → value < f' →
      encodeVarIntGo f value = encodeVarIntGo f' value := by
  intro value
  induction value using Nat.strong_induction_on with
  | _ value ih =>
    intro f f' h h'
    cases f with
    | zero => omega
    | succ g =>
      cases f' with
      | zero => omega
      | succ g' =>
        simp only [encodeVarIntGo]
        by_cases hr : value >>> 7 = 0
        · simp [hr]
        · have hlt : value >>> 7 < value := shiftRight7_lt hr
          rw [if_neg hr, if_neg hr, ih (value >>> 7) hlt g g' (by omega) (by omega)]

theorem encodeVarInt_eq (value : Nat) :
    encodeVarInt value =
      if value >>> 7 = 0 then [value &&& 127]
      else ((value &&& 127) ||| 128) :: encodeVarInt (value >>> 7) := by
  show encodeVarIntGo (value + 1) value = _
  simp only [encodeVarIntGo]
  by_cases hr : value >>> 7 = 0
  · simp [hr]
  · have hlt : value >>> 7 < value := shiftRight7_lt hr
    rw [if_neg hr, if_neg hr]
    show _ :: encodeVarIntGo value (value >>> 7) = _ :: encodeVarInt (value >>> 7)
    rw [encodeVarIntGo_fuel (value >>> 7) value (value >>> 7 + 1) (by omega) (by omega)]
    rfl

/-- Decoding the encoder's output: generalized over the accumulator and
shift of the partially-run decoding loop. -/
theorem readVarIntGo_encodeVarInt :
    ∀ (value : Nat) (shift acc : Nat) (rest : List Nat),
      acc < 2 ^ shift → value * 2 ^ shift < 2 ^ 64 →
      readVarIntGo (encodeVarInt value ++ rest) shift acc = (acc + value * 2 ^ shift, rest) := by
  intro value
  induction value using Nat.strong_induction_on with
  | _ value ih =>
    intro shift acc rest hacc hv
    rw [encodeVarInt_eq value]
    by_cases hr : value >>> 7 = 0
    · have hsmall : value < 128 := by
        rw [shiftRight_7_eq_div] at hr
        omega
      have hb : value &&& 127 = value := by
        rw [and_127_eq_mod]
        omega
      rw [if_pos hr]
      simp only [List.cons_append, List.nil_append, readVarIntGo, hb]
      rw [and_128_eq_zero hsmall, if_pos rfl]
      rw [Nat.shiftLeft_eq, Nat.mod_eq_of_lt hv, lor_mul_two_pow shift acc value hacc]
      rfl
    · have hsmall : value &&& 127 < 128 := by
        rw [and_127_eq_mod]
        omega
      have hchunk_le : (value &&& 127) * 2 ^ shift ≤ value * 2 ^ shift := by
        have hle : value &&& 127 ≤ value := by
          rw [and_127_eq_mod]
          exact Nat.mod_le value 128
        exact Nat.mul_le_mul_right _ hle
      rw [if_neg hr]
      simp only [List.cons_append, readVarIntGo]
      rw [lor_128_eq_add hsmall]
      have hne : ((value &&& 127) + 128) &&& 128 = 128 := add_128_and_128 hsmall
      have hb127 : ((value &&& 127) + 128) &&& 127 = value &&& 127 := by
        rw [and_127_eq_mod, and_127_eq_mod]
        omega
      rw [hne, if_neg (by omega), hb127]
      have hmod2 : ((value &&& 127) <<< shift) % 2 ^ 64 = (value &&& 127) * 2 ^ shift := by
        rw [Nat.shiftLeft_eq]
        exact Nat.mod_eq_of_lt (by omega)
      rw [hmod2, lor_mul_two_pow shift acc (value &&& 127) hacc]
      have hlt : value >>> 7 < value := shiftRight7_lt hr
      have hpow : (2 : Nat) ^ (shift + 7) = 2 ^ shift * 128 := by
        rw [pow_add]
        norm_num
      have hacc' : acc + (value &&& 127) * 2 ^ shift < 2 ^ (shift + 7) := by
        have hb : (value &&& 127) * 2 ^ shift ≤ 127 * 2 ^ shift :=
          Nat.mul_le_mul_right _ (by omega)
        have hc : (127 : Nat) * 2 ^ shift + 2 ^ shift = 128 * 2 ^ shift := by ring
        omega
      have hstep : (value >>> 7) * 2 ^ (shift + 7) + (value &&& 127) * 2 ^ shift =
          value * 2 ^ shift := by
        rw [shiftRight_7_eq_div, and_127_eq_mod, hpow]
        have heq : value / 128 * (2 ^ shift * 128) + value % 128 * 2 ^ shift =
            (value / 128 * 128 + value % 128) * 2 ^ shift := by ring
        rw [heq]
        congr 1
        omega
      have hv' : (value >>> 7) * 2 ^ (shift + 7) < 2 ^ 64 := by omega
      rw [List.append_eq,
        ih (value >>> 7) hlt (shift + 7) (acc + (value &&& 127) * 2 ^ shift) rest hacc' hv']
      congr 1
      omega

/-- Top-level varint round-trip, with arbitrary trailing bytes. -/
theorem readVarInt_encodeVarInt (value : Nat) (rest : List Nat) (h : value < 2 ^ 64) :
    readVarInt (encodeVarInt value ++ rest) = (value, rest) := by
  rw [readVarInt, readVarIntGo_encodeVarInt value 0 0 rest (by norm_num) (by simpa using h)]
  simp

/-- Encoding length: a value below `2 ^ (7 * k)` needs at most `max 1 k` bytes. -/
theorem encodeVarInt_length_le :
    ∀ (value k : Nat), value < 2 ^ (7 * k) → (encodeVarInt value).length ≤ max 1 k := by
  intro value
  induction value using Nat.strong_induction_on with
  | _ value ih =>
    intro k hk
    rw [encodeVarInt_eq value]
    by_cases hr : value >>> 7 = 0
    · simp [hr]
    · have hlt : value >>> 7 < value := shiftRight7_lt hr
      have hk1 : 1 ≤ k := by
        by_contra hcon
        have hz : k = 0 := by omega
        subst hz
        simp at hk
        rw [shiftRight_7_eq_div] at hr
        omega
      have hrk : value >>> 7 < 2 ^ (7 * (k - 1)) := by
        rw [shiftRight_7_eq_div]
        have h2 : 2 ^ (7 * k) = 2 ^ (7 * (k - 1)) * 128 := by
          have h128 : (128 : Nat) = 2 ^ 7 := by norm_num
          rw [h128, ← pow_add]
          congr 1
          omega
        rw [Nat.div_lt_iff_lt_mul (by norm_num)]
        omega
      have hv128 : 128 ≤ value := by
        rw [shiftRight_7_eq_div] at hr
        omega
      have hk2 : 2 ≤ k := by
        by_contra hcon
        have hone : k = 1 := by omega
        subst hone
        norm_num at hk
        omega
      have hA : (encodeVarInt (value >>> 7)).length ≤ max 1 (k - 1) := ih _ hlt (k - 1) hrk
      have hB : max 1 (k - 1) = k - 1 := max_eq_right (by omega)
      have hC : max 1 k = k := max_eq_right hk1
      rw [if_neg hr]
      simp only [List.length_cons]
      rw [hC]
      omega

/-- Claim C2 — Varint round-trip: decoding the little-endian base-128
encoding of any unsigned 64-bit value `v` yields `v` (consuming exactly the
encoding), the encoding is at most 10 bytes long, and the encoding of zero
is the single zero byte. -/
theorem varint_roundtrip_C2 :
    (∀ v : Nat, v < 2 ^ 64 →
      readVarInt (encodeVarInt v) = (v, []) ∧ (encodeVarInt v).length ≤ 10) ∧
    encodeVarInt 0 = [0] := by
  constructor
  · intro v hv
    constructor
    · have h := readVarInt_encodeVarInt v [] hv
      simpa using h
    · have h70 : v < 2 ^ (7 * 10) := lt_trans hv (by norm_num)
      have h := encodeVarInt_length_le v 10 h70
      simpa using h
  · decide

/-- Witness for C2 at the concrete value 300. -/
theorem varint_roundtrip_C2_witness :
    readVarInt (encodeVarInt 300) = (300, []) ∧ (encodeVarInt 300).length ≤ 10 :=
  varint_roundtrip_C2.1 300 (by norm_num)

/-! ## Event types (enum `EventType`, skeletonkey.cpp:16-57, mirrored in reader.cpp:12-53) -/

inductive EventType where
  | ThreadCreate
  | MutexInit | MutexDestroy | MutexLock | MutexLockDone
  | MutexTryLock | MutexTryLockDone | MutexTimedLock | MutexTimedLockDone | MutexUnlock
  | RWLockInit | RWLockDestroy | RWLockRead | RWLockReadDone
  | RWLockTryRead | RWLockTryReadDone | RWLockTimedRead | RWLockTimedReadDone
  | RWLockWrite | RWLockWriteDone | RWLockTryWrite | RWLockTryWriteDone
  | RWLockTimedWrite | RWLockTimedWriteDone | RWLockUnlock
  | CondInit | CondDestroy | CondSignal | CondBroadcast
  | CondWait | CondWaitDone | CondTimedWait | CondTimedWaitDone
deriving DecidableEq

/-- The `uint8_t` value of each enum tag (`static_cast<uint8_t>(type)`). -/
def EventType.tag : EventType → Nat
  | .ThreadCreate => 0
  | .MutexInit => 1
  | .MutexDestroy => 2
  | .MutexLock => 3
  | .MutexLockDone => 4
  | .MutexTryLock => 5
  | .MutexTryLockDone => 6
  | .MutexTimedLock => 7
  | .MutexTimedLockDone => 8
  | .MutexUnlock => 9
  | .RWLockInit => 10
  | .RWLockDestroy => 11
  | .RWLockRead => 12
  | .RWLockReadDone => 13
  | .RWLockTryRead => 14
  | .RWLockTryReadDone => 15
  | .RWLockTimedRead => 16
  | .RWLockTimedReadDone => 17
  | .RWLockWrite => 18
  | .RWLockWriteDone => 19
  | .RWLockTryWrite => 20
  | .RWLockTryWriteDone => 21
  | .RWLockTimedWrite => 22
  | .RWLockTimedWriteDone => 23
  | .RWLockUnlock => 24
  | .CondInit => 25
  | .CondDestroy => 26
  | .CondSignal => 27
  | .CondBroadcast => 28
  | .CondWait => 29
  | .CondWaitDone => 30
  | .CondTimedWait => 31
  | .CondTimedWaitDone => 32

/-! ## Event records

One serialized record, with the fields that reach the wire in
`EventLogger::log` (skeletonkey.cpp:152-183).  `type` is kept as the raw
tag byte so that the decoder side (which reads an arbitrary byte) has the
same type.  `result` is the signed 32-bit return value. -/

structure Event where
  timestamp : Nat
  tid : Nat
  type : Nat
  ptr1 : Nat
  ptr2 : Nat
  result : Int
  duration_ns : Nat
  stack : List Nat
deriving DecidableEq

/-- `static_cast<uint64_t>(result)` on an `int32_t`: two's-complement
sign extension to 64 bits. -/
def uint64OfInt32 (r : Int) : Nat := (r % (2 ^ 64 : Int)).toNat

/-- `int32_t result = reader.readVarInt()`: truncation of a `uint64_t` to
32 bits reinterpreted as two's-complement. -/
def int32OfUInt64 (v : Nat) : Int :=
  if v % 2 ^ 32 < 2 ^ 31 then ((v % 2 ^ 32 : Nat) : Int)
  else ((v % 2 ^ 32 : Nat) : Int) - 2 ^ 32

/-- Well-formed record: every field within its machine-integer range, the
kind a valid enum tag, and the stack within the 16-frame capture bound. -/
def Event.WF (e : Event) : Prop :=
  e.timestamp < 2 ^ 64 ∧ e.tid < 2 ^ 32 ∧ e.type ≤ 32 ∧
  e.ptr1 < 2 ^ 64 ∧ e.ptr2 < 2 ^ 64 ∧
  -(2 : Int) ^ 31 ≤ e.result ∧ e.result < 2 ^ 31 ∧ e.duration_ns < 2 ^ 64 ∧
  e.stack.length ≤ 16 ∧ ∀ p ∈ e.stack, p < 2 ^ 64

instance (e : Event) : Decidable e.WF := by
  unfold Event.WF
  infer_instance

/-! ## Writer (`VarIntWriter`, skeletonkey.cpp:73-125) -/

structure VarIntWriter where
  buffer : List Nat

/-- `buffer.clear()` (skeletonkey.cpp:89-92). -/
def VarIntWriter.clear (_w : VarIntWriter) : VarIntWriter := ⟨[]⟩

/-- `write(uint64_t)` (skeletonkey.cpp:94-97). -/
def VarIntWriter.write (w : VarIntWriter) (value : Nat) : VarIntWriter :=
  ⟨w.buffer ++ encodeVarInt value⟩

/-- `write(EventType)`: a single raw byte (skeletonkey.cpp:99-102). -/
def VarIntWriter.writeType (w : VarIntWriter) (tag : Nat) : VarIntWriter :=
  ⟨w.buffer ++ [tag]⟩

/-- `writePtr` (skeletonkey.cpp:104-107); the pointer bit-pattern is the Nat. -/
def VarIntWriter.writePtr (w : VarIntWriter) (p : Nat) : VarIntWriter :=
  ⟨w.buffer ++ encodeVarInt p⟩

/-- `writeStack(stack, depth)` (skeletonkey.cpp:109-115): the depth, then
each frame. -/
def VarIntWriter.writeStack (w : VarIntWriter) (stack : List Nat) : VarIntWriter :=
  stack.foldl (fun acc p => acc.writePtr p) (w.write stack.length)

/-- The serialization performed by `EventLogger::log` (skeletonkey.cpp:171-179):
clear, then the eight `writer_` calls in source order. -/
def serializeEvent (e : Event) : List Nat :=
  (((((((((VarIntWriter.mk []).write e.timestamp).write e.tid).writeType
      e.type).writePtr e.ptr1).writePtr e.ptr2).write
      (uint64OfInt32 e.result)).write e.duration_ns).writeStack e.stack).buffer

/-- Modelled from the spec (§4.2): the wire form of one record is the
concatenation, in the order `timestamp, tid, kind, ptr1, ptr2, result,
duration_ns, stack`, of varint-coded fields, with `kind` a single raw byte
and the stack prefixed by its varint-coded length. -/
def wireFormatSpec (e : Event) : List Nat :=
  encodeVarInt e.timestamp ++ encodeVarInt e.tid ++ [e.type] ++
  encodeVarInt e.ptr1 ++ encodeVarInt e.ptr2 ++
  encodeVarInt (uint64OfInt32 e.result) ++ encodeVarInt e.duration_ns ++
  (encodeVarInt e.stack.length ++ (e.stack.map encodeVarInt).flatten)

theorem writeStack_foldl (stack : List Nat) :
    ∀ (w : VarIntWriter),
      (stack.foldl (fun acc p => acc.writePtr p) w).buffer =
        w.buffer ++ (stack.map encodeVarInt).flatten := by
  induction stack with
  | nil => intro w; simp
  | cons p ps ih =>
    intro w
    rw [List.foldl_cons, ih]
    simp [VarIntWriter.writePtr, List.append_assoc]

/-- Claim C3 — Wire layout of one record: the writer's serialization equals
the concatenation of the varint fields, the raw kind byte and the
varint-prefixed stack, in the order `timestamp, tid, kind, ptr1, ptr2,
result, duration_ns, stack`. -/
theorem serializeEvent_wire_layout_C3 (e : Event) :
    serializeEvent e = wireFormatSpec e := by
  simp only [serializeEvent, VarIntWriter.writeStack, writeStack_foldl]
  simp [wireFormatSpec, VarIntWriter.write, VarIntWriter.writeType, VarIntWriter.writePtr,
    List.append_assoc]

/-! ## Reader (`VarIntReader`, reader.cpp:55-108) -/

/-- `readEventType` (reader.cpp:81-84): one raw byte.  Indexing past the
end (`buffer_[pos_++]` with `pos_ ≥ size`) is undefined behaviour in the
source; it is modelled as the byte 0.  The round-trip theorems below only
reach in-bounds positions. -/
def readEventType (buf : List Nat) : Nat × List Nat :=
  (buf.headD 0, buf.tail)

/-- The frame loop of `readStack` (reader.cpp:97-99). -/
def readPtrs : Nat → List Nat → List Nat × List Nat
  | 0, buf => ([], buf)
  | n + 1, buf =>
    let pr := readVarInt buf
    let ps := readPtrs n pr.2
    (pr.1 :: ps.1, ps.2)

/-- `readStack` (reader.cpp:91-102): `uint32_t depth = readVarInt()`, then
`depth` pointer reads. -/
def readStack (buf : List Nat) : List Nat × List Nat :=
  let d := readVarInt buf
  readPtrs (d.1 % 2 ^ 32) d.2

/-- One iteration of the reader's main loop (reader.cpp:212-220): the eight
reads in source order, with the `uint32_t` truncation of `tid` and the
`int32_t` reinterpretation of `result`. -/
def decodeEvent (buf : List Nat) : Event × List Nat :=
  let ts := readVarInt buf
  let tid := readVarInt ts.2
  let ty := readEventType tid.2
  let p1 := readVarInt ty.2
  let p2 := readVarInt p1.2
  let res := readVarInt p2.2
  let dur := readVarInt res.2
  let st := readStack dur.2
  (⟨ts.1, tid.1 % 2 ^ 32, ty.1, p1.1, p2.1, int32OfUInt64 res.1, dur.1, st.1⟩, st.2)

/-! ## Signed-result reinterpretation -/

theorem uint64OfInt32_lt_two_pow (r : Int) : uint64OfInt32 r < 2 ^ 64 := by
  unfold uint64OfInt32
  have h1 : 0 ≤ r % (2 ^ 64 : Int) := Int.emod_nonneg r (by norm_num)
  have h2 : r % (2 ^ 64 : Int) < 2 ^ 64 := Int.emod_lt_of_pos r (by norm_num)
  omega

theorem int32OfUInt64_uint64OfInt32 (r : Int) (h1 : -(2 : Int) ^ 31 ≤ r) (h2 : r < 2 ^ 31) :
    int32OfUInt64 (uint64OfInt32 r) = r := by
  unfold int32OfUInt64 uint64OfInt32
  have hnn : 0 ≤ r % (2 ^ 64 : Int) := Int.emod_nonneg r (by norm_num)
  have hlt : r % (2 ^ 64 : Int) < 2 ^ 64 := Int.emod_lt_of_pos r (by norm_num)
  have hcase : r % (2 ^ 64 : Int) = if 0 ≤ r then r else r + 2 ^ 64 := by
    split
    · exact Int.emod_eq_of_lt (by omega) (by omega)
    · rw [← Int.add_mul_emod_self_left r (2 ^ 64) 1]
      exact Int.emod_eq_of_lt (by omega) (by omega)
  split
  · split at hcase <;> omega
  · split at hcase <;> omega

/-! ## Record round-trip -/

theorem serializeEvent_eq_wire (e : Event) : serializeEvent e = wireFormatSpec e := by
  simp only [serializeEvent, VarIntWriter.writeStack, writeStack_foldl]
  simp [wireFormatSpec, VarIntWriter.write, VarIntWriter.writeType, VarIntWriter.writePtr,
    List.append_assoc]

theorem readPtrs_encode :
    ∀ (stack : List Nat) (rest : List Nat), (∀ p ∈ stack, p < 2 ^ 64) →
      readPtrs stack.length ((stack.map encodeVarInt).flatten ++ rest) = (stack, rest) := by
  intro stack
  induction stack with
  | nil =>
    intro rest _
    simp [readPtrs]
  | cons p ps ih =>
    intro rest h
    simp only [List.map_cons, List.flatten_cons, List.length_cons, readPtrs,
      List.append_assoc]
    rw [readVarInt_encodeVarInt p _ (h p (List.mem_cons_self p ps))]
    rw [ih rest (fun q hq => h q (List.mem_cons_of_mem p hq))]

theorem decodeEvent_serializeEvent (e : Event) (rest : List Nat) (h : e.WF) :
    decodeEvent (serializeEvent e ++ rest) = (e, rest) := by
  obtain ⟨hts, htid, hty, hp1, hp2, hr1, hr2, hdur, hlen, hstack⟩ := h
  rw [serializeEvent_eq_wire]
  simp only [wireFormatSpec, List.append_assoc, List.singleton_append, List.cons_append]
  simp only [decodeEvent, readStack]
  rw [readVarInt_encodeVarInt _ _ hts]
  dsimp only
  rw [readVarInt_encodeVarInt _ _ (lt_trans htid (by norm_num))]
  simp only [readEventType, List.headD_cons, List.tail_cons, List.nil_append]
  rw [readVarInt_encodeVarInt _ _ hp1]
  dsimp only
  rw [readVarInt_encodeVarInt _ _ hp2]
  dsimp only
  rw [readVarInt_encodeVarInt _ _ (uint64OfInt32_lt_two_pow e.result)]
  dsimp only
  rw [readVarInt_encodeVarInt _ _ hdur]
  dsimp only
  rw [readVarInt_encodeVarInt _ _ (show e.stack.length < 2 ^ 64 by omega)]
  dsimp only
  rw [Nat.mod_eq_of_lt (show e.stack.length < 2 ^ 32 by omega)]
  rw [readPtrs_encode e.stack rest hstack]
  rw [Nat.mod_eq_of_lt htid, int32OfUInt64_uint64OfInt32 e.result hr1 hr2]

/-- Claim C1 — Record round-trip: decoding the writer's serialization of a
well-formed record recovers the record exactly (every field, including the
stack), and consumes exactly the serialized bytes. -/
theorem record_roundtrip_C1 (e : Event) (rest : List Nat) (h : e.WF) :
    decodeEvent (serializeEvent e ++ rest) = (e, rest) :=
  decodeEvent_serializeEvent e rest h

/-- Witness for C1 on a concrete record with a 2-frame stack. -/
theorem record_roundtrip_C1_witness :
    (Event.mk 1000 42 3 77 0 0 5 [101, 202]).WF ∧
      decodeEvent (serializeEvent (Event.mk 1000 42 3 77 0 0 5 [101, 202]) ++ [9]) =
        (Event.mk 1000 42 3 77 0 0 5 [101, 202], [9]) :=
  ⟨by decide, record_roundtrip_C1 (Event.mk 1000 42 3 77 0 0 5 [101, 202]) [9] (by decide)⟩

/-- Claim C5 — Signed result encoding: the writer stores a signed 32-bit
result by two's-complement reinterpretation as unsigned
(`static_cast<uint64_t>(result)`, sign-extending to 64 bits), the
decoder's symmetric reinterpretation (`int32_t result = readVarInt()`)
recovers exactly the value, and the encoding of −1 occupies exactly ten
bytes. -/
theorem signed_result_C5 :
    (∀ r : Int, -(2 : Int) ^ 31 ≤ r → r < 2 ^ 31 →
      int32OfUInt64 (readVarInt (encodeVarInt (uint64OfInt32 r))).1 = r) ∧
    (encodeVarInt (uint64OfInt32 (-1))).length = 10 := by
  constructor
  · intro r h1 h2
    have hu : uint64OfInt32 r < 2 ^ 64 := uint64OfInt32_lt_two_pow r
    have hr := readVarInt_encodeVarInt (uint64OfInt32 r) [] hu
    rw [List.append_nil] at hr
    rw [hr]
    exact int32OfUInt64_uint64OfInt32 r h1 h2
  · decide

/-- Witness for C5 at r = −1. -/
theorem signed_result_C5_witness :
    int32OfUInt64 (readVarInt (encodeVarInt (uint64OfInt32 (-1)))).1 = -1 :=
  signed_result_C5.1 (-1) (by norm_num) (by norm_num)

/-! ## The reader's main loop (reader.cpp:211-244)

`while (!reader.eof()) { ...decode one record... }`; each iteration
consumes at least the first byte, so the buffer length is a bound on the
iteration count and serves as structural fuel. -/

theorem readVarIntGo_length_le :
    ∀ (buf : List Nat) (shift acc : Nat), (readVarIntGo buf shift acc).2.length ≤ buf.length := by
  intro buf
  induction buf with
  | nil =>
    intro shift acc
    simp [readVarIntGo]
  | cons b l ih =>
    intro shift acc
    simp only [readVarIntGo]
    split
    · simp
    · exact le_trans (ih _ _) (by simp)

theorem readVarInt_length_le (buf : List Nat) : (readVarInt buf).2.length ≤ buf.length :=
  readVarIntGo_length_le buf 0 0

theorem readVarInt_cons_length (b : Nat) (l : List Nat) :
    (readVarInt (b :: l)).2.length ≤ l.length := by
  show (readVarIntGo (b :: l) 0 0).2.length ≤ l.length
  simp only [readVarIntGo]
  split
  · simp
  · exact readVarIntGo_length_le l _ _

theorem readEventType_length_le (buf : List Nat) :
    (readEventType buf).2.length ≤ buf.length := by
  simp [readEventType, List.length_tail]

theorem readPtrs_length_le :
    ∀ (n : Nat) (buf : List Nat), (readPtrs n buf).2.length ≤ buf.length := by
  intro n
  induction n with
  | zero =>
    intro buf
    simp [readPtrs]
  | succ m ih =>
    intro buf
    simp only [readPtrs]
    exact le_trans (ih _) (readVarInt_length_le buf)

theorem readStack_length_le (buf : List Nat) : (readStack buf).2.length ≤ buf.length := by
  simp only [readStack]
  exact le_trans (readPtrs_length_le _ _) (readVarInt_length_le buf)

theorem decodeEvent_length_lt (b : Nat) (l : List Nat) :
    (decodeEvent (b :: l)).2.length < (b :: l).length := by
  simp only [decodeEvent]
  have e1 := readVarInt_cons_length b l
  have e2 := readVarInt_length_le (readVarInt (b :: l)).2
  have e3 := readEventType_length_le (readVarInt (readVarInt (b :: l)).2).2
  have e4 := readVarInt_length_le (readEventType (readVarInt (readVarInt (b :: l)).2).2).2
  have e5 := readVarInt_length_le
    (readVarInt (readEventType (readVarInt (readVarInt (b :: l)).2).2).2).2
  have e6 := readVarInt_length_le
    (readVarInt (readVarInt (readEventType (readVarInt (readVarInt (b :: l)).2).2).2).2).2
  have e7 := readVarInt_length_le
    (readVarInt
      (readVarInt (readVarInt (readEventType (readVarInt (readVarInt (b :: l)).2).2).2).2).2).2
  have e8 := readStack_length_le
    (readVarInt
      (readVarInt
        (readVarInt (readVarInt (readEventType (readVarInt (readVarInt (b :: l)).2).2).2).2).2).2).2
  simp only [List.length_cons]
  omega

/-- The reader's `while (!reader.eof())` loop, with the buffer length as
fuel (sufficient: every iteration consumes at least one byte). -/
def decodeTraceGo : Nat → List Nat → List Event
  | 0, _ => []
  | _, [] => []
  | fuel + 1, b :: rest =>
    (decodeEvent (b :: rest)).1 :: decodeTraceGo fuel (decodeEvent (b :: rest)).2

def decodeTrace (buf : List Nat) : List Event :=
  decodeTraceGo buf.length buf

theorem decodeTraceGo_nil : ∀ fuel : Nat, decodeTraceGo fuel [] = [] := by
  intro fuel
  cases fuel <;> rfl

theorem decodeTraceGo_fuel :
    ∀ (f : Nat) (buf : List Nat) (f' : Nat), buf.length ≤ f → buf.length ≤ f' →
      decodeTraceGo f buf = decodeTraceGo f' buf := by
  intro f
  induction f with
  | zero =>
    intro buf f' h h'
    have hb : buf = [] := by
      cases buf with
      | nil => rfl
      | cons x xs => simp at h
    subst hb
    rw [decodeTraceGo_nil, decodeTraceGo_nil]
  | succ g ih =>
    intro buf f' h h'
    cases buf with
    | nil => rw [decodeTraceGo_nil, decodeTraceGo_nil]
    | cons b l =>
      cases f' with
      | zero => simp at h'
      | succ g' =>
        simp only [decodeTraceGo]
        have hlt := decodeEvent_length_lt b l
        simp only [List.length_cons] at h h' hlt
        rw [ih (decodeEvent (b :: l)).2 g' (by omega) (by omega)]

theorem decodeTrace_cons (b : Nat) (l : List Nat) :
    decodeTrace (b :: l) =
      (decodeEvent (b :: l)).1 :: decodeTrace (decodeEvent (b :: l)).2 := by
  show decodeTraceGo (b :: l).length (b :: l) = _
  simp only [List.length_cons, decodeTraceGo]
  have hlt := decodeEvent_length_lt b l
  simp only [List.length_cons] at hlt
  rw [decodeTraceGo_fuel l.length (decodeEvent (b :: l)).2 (decodeEvent (b :: l)).2.length
    (by omega) (by omega)]
  rfl

theorem encodeVarInt_ne_nil (v : Nat) : encodeVarInt v ≠ [] := by
  rw [encodeVarInt_eq]
  split <;> simp

theorem serializeEvent_ne_nil (e : Event) : serializeEvent e ≠ [] := by
  rw [serializeEvent_eq_wire]
  simp only [wireFormatSpec, List.append_assoc]
  intro hz
  rcases List.append_eq_nil.mp hz with ⟨h1, _⟩
  exact encodeVarInt_ne_nil e.timestamp h1

theorem decodeTrace_append_event (e : Event) (rest : List Nat) (h : e.WF) :
    decodeTrace (serializeEvent e ++ rest) = e :: decodeTrace rest := by
  have hd := decodeEvent_serializeEvent e rest h
  rcases hcons : serializeEvent e ++ rest with _ | ⟨b, l⟩
  · exact absurd (List.append_eq_nil.mp hcons).1 (serializeEvent_ne_nil e)
  · rw [decodeTrace_cons b l, ← hcons, hd]

/-- Decoding a concatenation of well-formed serialized records followed by
arbitrary bytes yields those records followed by whatever the leftover
bytes decode to. -/
theorem decodeTrace_encodeTrace :
    ∀ (es : List Event) (extra : List Nat), (∀ e ∈ es, e.WF) →
      decodeTrace ((es.map serializeEvent).flatten ++ extra) = es ++ decodeTrace extra := by
  intro es
  induction es with
  | nil =>
    intro extra _
    simp
  | cons e es ih =>
    intro extra h
    simp only [List.map_cons, List.flatten_cons, List.append_assoc]
    rw [decodeTrace_append_event e _ (h e (List.mem_cons_self e es)),
      ih extra (fun q hq => h q (List.mem_cons_of_mem e hq))]
    simp

/-- Counterexample to claim C4 as stated: cutting the 8-byte trace of the
single record `⟨1,2,3,5,7,0,0,[]⟩` to its first 4 bytes decodes to a
one-record sequence whose record has `ptr2 = 0` instead of `7` — the
reader does not stop at the last fully-decoded record but fabricates a
record from the truncated tail, so the result is not a prefix of the
trace's event sequence (whose only prefixes are `[]` and the full
sequence). -/
theorem truncation_C4_counterexample :
    decodeTrace (serializeEvent (Event.mk 1 2 3 5 7 0 0 [])) = [Event.mk 1 2 3 5 7 0 0 []] ∧
    decodeTrace (List.take 4 (serializeEvent (Event.mk 1 2 3 5 7 0 0 []))) =
      [Event.mk 1 2 3 5 0 0 0 []] ∧
    Event.mk 1 2 3 5 0 0 0 [] ≠ Event.mk 1 2 3 5 7 0 0 [] := by
  decide

/-- Claim C4 amended — Truncation tolerance of the decoder: decoding a
buffer of whole serialized records followed by leftover bytes yields
exactly those records followed by whatever the leftover decodes to; in
particular truncation at a record boundary yields exactly that prefix of
the event sequence, and the decoder is total (a truncated final record is
never a fatal error), but a mid-record cut is decoded as one spurious
trailing record (missing fields read as zero) rather than being dropped. -/
theorem truncation_tolerance_C4 (es : List Event) (extra : List Nat)
    (h : ∀ e ∈ es, e.WF) :
    decodeTrace ((es.map serializeEvent).flatten ++ extra) = es ++ decodeTrace extra :=
  decodeTrace_encodeTrace es extra h

/-- Witness for the amended C4: a one-record trace truncated at the record
boundary decodes to exactly that record. -/
theorem truncation_tolerance_C4_witness :
    (∀ e ∈ [Event.mk 1 2 3 5 7 0 0 []], e.WF) ∧
      decodeTrace (([Event.mk 1 2 3 5 7 0 0 []].map serializeEvent).flatten ++ []) =
        [Event.mk 1 2 3 5 7 0 0 []] ++ decodeTrace [] :=
  ⟨by decide, truncation_tolerance_C4 [Event.mk 1 2 3 5 7 0 0 []] [] (by decide)⟩

/-! ## Truncated varints (claim C9) -/

/-- Decoding a proper prefix of an encoding: the `k` bytes present all
carry continuation bits, so the loop consumes them all and returns the
value of the payload bits present. -/
theorem readVarIntGo_take :
    ∀ (k : Nat), ∀ (v shift acc : Nat), 0 < k → k < (encodeVarInt v).length →
      v < 2 ^ 64 → acc < 2 ^ shift → (v % 2 ^ (7 * (k + 1))) * 2 ^ shift < 2 ^ 64 →
      readVarIntGo (List.take k (encodeVarInt v)) shift acc =
        (acc + (v % 2 ^ (7 * k)) * 2 ^ shift, []) := by
  intro k
  induction k with
  | zero =>
    intro v shift acc h0
    exact absurd h0 (lt_irrefl 0)
  | succ k ih =>
    intro v shift acc hpos hlen hv hacc hbound
    have hr : v >>> 7 ≠ 0 := by
      intro h0
      rw [encodeVarInt_eq v, if_pos h0] at hlen
      simp at hlen
    have hsmall : v &&& 127 < 128 := by
      rw [and_127_eq_mod]
      omega
    have h7k : (2 : Nat) ^ (7 * (k + 1)) = 128 * 2 ^ (7 * k) := by
      rw [show 7 * (k + 1) = 7 + 7 * k by ring, pow_add]
      norm_num
    have hsplit : v % 2 ^ (7 * (k + 1)) = v % 128 + 128 * (v / 128 % 2 ^ (7 * k)) := by
      rw [h7k, Nat.mod_mul]
    have hmono : (v % 2 ^ (7 * (k + 1))) * 2 ^ shift ≤ (v % 2 ^ (7 * (k + 2))) * 2 ^ shift := by
      apply Nat.mul_le_mul_right
      have hd : (2 : Nat) ^ (7 * (k + 1)) ∣ 2 ^ (7 * (k + 2)) :=
        pow_dvd_pow 2 (by omega)
      calc v % 2 ^ (7 * (k + 1)) = v % 2 ^ (7 * (k + 2)) % 2 ^ (7 * (k + 1)) :=
            (Nat.mod_mod_of_dvd v hd).symm
        _ ≤ v % 2 ^ (7 * (k + 2)) := Nat.mod_le _ _
    have hchunk_lt : (v &&& 127) * 2 ^ shift < 2 ^ 64 := by
      have h1 : v &&& 127 ≤ v % 2 ^ (7 * (k + 1)) := by
        rw [and_127_eq_mod]
        omega
      exact lt_of_le_of_lt (Nat.mul_le_mul_right _ h1) (lt_of_le_of_lt hmono hbound)
    rw [encodeVarInt_eq v, if_neg hr, List.take_succ_cons]
    simp only [readVarIntGo]
    rw [lor_128_eq_add hsmall, add_128_and_128 hsmall, if_neg (by omega)]
    have hb127 : ((v &&& 127) + 128) &&& 127 = v &&& 127 := by
      rw [and_127_eq_mod, and_127_eq_mod]
      omega
    rw [hb127]
    have hmodel : ((v &&& 127) <<< shift) % 2 ^ 64 = (v &&& 127) * 2 ^ shift := by
      rw [Nat.shiftLeft_eq]
      exact Nat.mod_eq_of_lt hchunk_lt
    rw [hmodel, lor_mul_two_pow shift acc (v &&& 127) hacc]
    have hpow7 : (2 : Nat) ^ (shift + 7) = 2 ^ shift * 128 := by
      rw [pow_add]
      norm_num
    rcases Nat.eq_zero_or_pos k with h0 | hk
    · subst h0
      simp only [List.take_zero, readVarIntGo]
      have : v % 2 ^ (7 * 1) = v &&& 127 := by
        rw [and_127_eq_mod]
        norm_num
      rw [this]
    · have hlen' : k < (encodeVarInt (v >>> 7)).length := by
        rw [encodeVarInt_eq v, if_neg hr, List.length_cons] at hlen
        omega
      have hv' : v >>> 7 < 2 ^ 64 := lt_trans (shiftRight7_lt hr) hv
      have hacc' : acc + (v &&& 127) * 2 ^ shift < 2 ^ (shift + 7) := by
        have hb : (v &&& 127) * 2 ^ shift ≤ 127 * 2 ^ shift :=
          Nat.mul_le_mul_right _ (by omega)
        have hc : (127 : Nat) * 2 ^ shift + 2 ^ shift = 128 * 2 ^ shift := by ring
        omega
      have hb2 : (v >>> 7) % 2 ^ (7 * (k + 1)) * 2 ^ (shift + 7) ≤
          (v % 2 ^ (7 * (k + 2))) * 2 ^ shift := by
        have hs2 : v % 2 ^ (7 * (k + 2)) = v % 128 + 128 * (v / 128 % 2 ^ (7 * (k + 1))) := by
          rw [show 7 * (k + 2) = 7 + 7 * (k + 1) by ring, pow_add,
            show (2 : Nat) ^ 7 = 128 by norm_num, Nat.mod_mul]
        rw [shiftRight_7_eq_div, hpow7]
        calc v / 128 % 2 ^ (7 * (k + 1)) * (2 ^ shift * 128) =
              (128 * (v / 128 % 2 ^ (7 * (k + 1)))) * 2 ^ shift := by ring
          _ ≤ (v % 2 ^ (7 * (k + 2))) * 2 ^ shift := by
              apply Nat.mul_le_mul_right
              omega
      have hbound' : (v >>> 7) % 2 ^ (7 * (k + 1)) * 2 ^ (shift + 7) < 2 ^ 64 :=
        lt_of_le_of_lt hb2 hbound
      rw [ih (v >>> 7) (shift + 7) (acc + (v &&& 127) * 2 ^ shift) hk hlen' hv' hacc' hbound']
      have hfinal : acc + (v &&& 127) * 2 ^ shift + v >>> 7 % 2 ^ (7 * k) * 2 ^ (shift + 7) =
          acc + v % 2 ^ (7 * (k + 1)) * 2 ^ shift := by
        rw [and_127_eq_mod, shiftRight_7_eq_div, hsplit, hpow7]
        ring
      rw [hfinal]

/-- Claim C9 — Varint decode is total and silent at end of input: the
decode loop always terminates consuming at most the buffer; invoked at or
past the end of the buffer it returns 0 with no error signal; and a varint
cut off by the buffer end decodes to the value of the payload bits that
are present — which equals the decode of the legitimate encoding of that
smaller value, so the decoder cannot distinguish the two. -/
theorem varint_truncation_C9 :
    readVarInt [] = (0, []) ∧
    (∀ buf : List Nat, (readVarInt buf).2.length ≤ buf.length) ∧
    (∀ v k : Nat, v < 2 ^ 64 → 0 < k → k < (encodeVarInt v).length →
      readVarInt (List.take k (encodeVarInt v)) = (v % 2 ^ (7 * k), []) ∧
      readVarInt (encodeVarInt (v % 2 ^ (7 * k))) = (v % 2 ^ (7 * k), [])) := by
  refine ⟨rfl, readVarInt_length_le, ?_⟩
  intro v k hv hk hlen
  constructor
  · rw [readVarInt, readVarIntGo_take k v 0 0 hk hlen hv (by norm_num)
      (by simpa using lt_of_le_of_lt (Nat.mod_le v _) hv)]
    simp
  · have h := readVarInt_encodeVarInt (v % 2 ^ (7 * k)) []
      (lt_of_le_of_lt (Nat.mod_le v _) hv)
    simpa using h

/-- Witness for C9: the first byte of the 2-byte encoding of 300 decodes
to 44 = 300 mod 128, exactly as the encoding of 44 itself does. -/
theorem varint_truncation_C9_witness :
    readVarInt (List.take 1 (encodeVarInt 300)) = (300 % 2 ^ 7, []) ∧
    readVarInt (encodeVarInt (300 % 2 ^ 7)) = (300 % 2 ^ 7, []) :=
  varint_truncation_C9.2.2 300 1 (by norm_num) (by norm_num) (by decide)

/-! ## Interposition wrappers (skeletonkey.cpp:287-678)

Each wrapper's observable behaviour is a function of:
* whether the next-chain symbol was resolved at load time: `real` is
  `some ret` with `ret` the value the real implementation returns, or
  `none` when `dlsym`/`dlvsym` returned null.  `init_skeleton_key`
  (skeletonkey.cpp:226-284) stores the raw lookup result with no check
  and keeps no record of failures, so a failed symbol leaves a null
  pointer that the wrapper then invokes — undefined behaviour, modelled
  as `WrapperOutcome.crash`;
* the per-thread recursion flag `in_hook` (skeletonkey.cpp:223) on entry;
* the stopwatch reading `dur` for blocking wrappers.

`LogArgs` records the arguments of each `EventLogger::log` call the
wrapper makes, in source order. -/

structure LogArgs where
  type : EventType
  ptr1 : Nat
  ptr2 : Nat
  result : Int
  duration_ns : Nat
deriving DecidableEq

inductive WrapperOutcome where
  | crash
  | ok (result : Int) (logCalls : List LogArgs) (inHookAfter : Bool)
deriving DecidableEq

def WrapperOutcome.logCalls : WrapperOutcome → List LogArgs
  | .crash => []
  | .ok _ logCalls _ => logCalls

def WrapperOutcome.retVal : WrapperOutcome → Option Int
  | .crash => none
  | .ok r _ _ => some r

def WrapperOutcome.hookAfter : WrapperOutcome → Option Bool
  | .crash => none
  | .ok _ _ b => some b

/-- Skeleton of a non-blocking wrapper (e.g. skeletonkey.cpp:290-300):
guard, delegate, single post-event with the result and no duration. -/
def wrapPlain (ty : EventType) (real : Option Int) (p1 p2 : Nat) (inHook : Bool) :
    WrapperOutcome :=
  match real with
  | none => .crash
  | some ret =>
    if inHook then .ok ret [] inHook
    else .ok ret [⟨ty, p1, p2, ret, 0⟩] false

/-- Skeleton of a blocking wrapper (e.g. skeletonkey.cpp:314-333): guard,
pre-event with result 0 and duration 0, delegate under the stopwatch,
post-event with the result and the elapsed duration. -/
def wrapTimed (pre post : EventType) (real : Option Int) (p1 p2 : Nat) (inHook : Bool)
    (dur : Nat) : WrapperOutcome :=
  match real with
  | none => .crash
  | some ret =>
    if inHook then .ok ret [] inHook
    else .ok ret [⟨pre, p1, p2, 0, 0⟩, ⟨post, p1, p2, ret, dur⟩] false

def pthread_mutex_init (real : Option Int) (mutex : Nat) (inHook : Bool) : WrapperOutcome :=
  wrapPlain .MutexInit real mutex 0 inHook

def pthread_mutex_destroy (real : Option Int) (mutex : Nat) (inHook : Bool) : WrapperOutcome :=
  wrapPlain .MutexDestroy real mutex 0 inHook

def pthread_mutex_lock (real : Option Int) (mutex : Nat) (inHook : Bool) (dur : Nat) :
    WrapperOutcome :=
  wrapTimed .MutexLock .MutexLockDone real mutex 0 inHook dur

def pthread_mutex_trylock (real : Option Int) (mutex : Nat) (inHook : Bool) (dur : Nat) :
    WrapperOutcome :=
  wrapTimed .MutexTryLock .MutexTryLockDone real mutex 0 inHook dur

def pthread_mutex_timedlock (real : Option Int) (mutex : Nat) (inHook : Bool) (dur : Nat) :
    WrapperOutcome :=
  wrapTimed .MutexTimedLock .MutexTimedLockDone real mutex 0 inHook dur

def pthread_mutex_unlock (real : Option Int) (mutex : Nat) (inHook : Bool) : WrapperOutcome :=
  wrapPlain .MutexUnlock real mutex 0 inHook

def pthread_cond_init (real : Option Int) (cond : Nat) (inHook : Bool) : WrapperOutcome :=
  wrapPlain .CondInit real cond 0 inHook

def pthread_cond_destroy (real : Option Int) (cond : Nat) (inHook : Bool) : WrapperOutcome :=
  wrapPlain .CondDestroy real cond 0 inHook

def pthread_cond_signal (real : Option Int) (cond : Nat) (inHook : Bool) : WrapperOutcome :=
  wrapPlain .CondSignal real cond 0 inHook

def pthread_cond_broadcast (real : Option Int) (cond : Nat) (inHook : Bool) : WrapperOutcome :=
  wrapPlain .CondBroadcast real cond 0 inHook

def pthread_cond_wait (real : Option Int) (cond mutex : Nat) (inHook : Bool) (dur : Nat) :
    WrapperOutcome :=
  wrapTimed .CondWait .CondWaitDone real cond mutex inHook dur

def pthread_cond_timedwait (real : Option Int) (cond mutex : Nat) (inHook : Bool)
    (dur : Nat) : WrapperOutcome :=
  wrapTimed .CondTimedWait .CondTimedWaitDone real cond mutex inHook dur

def pthread_rwlock_init (real : Option Int) (rwlock : Nat) (inHook : Bool) : WrapperOutcome :=
  wrapPlain .RWLockInit real rwlock 0 inHook

def pthread_rwlock_destroy (real : Option Int) (rwlock : Nat) (inHook : Bool) :
    WrapperOutcome :=
  wrapPlain .RWLockDestroy real rwlock 0 inHook

def pthread_rwlock_rdlock (real : Option Int) (rwlock : Nat) (inHook : Bool) (dur : Nat) :
    WrapperOutcome :=
  wrapTimed .RWLockRead .RWLockReadDone real rwlock 0 inHook dur

def pthread_rwlock_tryrdlock (real : Option Int) (rwlock : Nat) (inHook : Bool) (dur : Nat) :
    WrapperOutcome :=
  wrapTimed .RWLockTryRead .RWLockTryReadDone real rwlock 0 inHook dur

def pthread_rwlock_timedrdlock (real : Option Int) (rwlock : Nat) (inHook : Bool)
    (dur : Nat) : WrapperOutcome :=
  wrapTimed .RWLockTimedRead .RWLockTimedReadDone real rwlock 0 inHook dur

def pthread_rwlock_wrlock (real : Option Int) (rwlock : Nat) (inHook : Bool) (dur : Nat) :
    WrapperOutcome :=
  wrapTimed .RWLockWrite .RWLockWriteDone real rwlock 0 inHook dur

def pthread_rwlock_trywrlock (real : Option Int) (rwlock : Nat) (inHook : Bool) (dur : Nat) :
    WrapperOutcome :=
  wrapTimed .RWLockTryWrite .RWLockTryWriteDone real rwlock 0 inHook dur

def pthread_rwlock_timedwrlock (real : Option Int) (rwlock : Nat) (inHook : Bool)
    (dur : Nat) : WrapperOutcome :=
  wrapTimed .RWLockTimedWrite .RWLockTimedWriteDone real rwlock 0 inHook dur

def pthread_rwlock_unlock (real : Option Int) (rwlock : Nat) (inHook : Bool) :
    WrapperOutcome :=
  wrapPlain .RWLockUnlock real rwlock 0 inHook

def pthread_create (real : Option Int) (thread : Nat) (inHook : Bool) : WrapperOutcome :=
  wrapPlain .ThreadCreate real thread 0 inHook

/-- All 22 wrapped entry points, applied with `p` as the caller's primary
object pointer and `q` as the secondary pointer (the mutex of a
condition-variable wait). -/
def allWrapperOutcomes (real : Option Int) (p q : Nat) (inHook : Bool) (dur : Nat) :
    List WrapperOutcome :=
  [pthread_mutex_init real p inHook,
   pthread_mutex_destroy real p inHook,
   pthread_mutex_lock real p inHook dur,
   pthread_mutex_trylock real p inHook dur,
   pthread_mutex_timedlock real p inHook dur,
   pthread_mutex_unlock real p inHook,
   pthread_cond_init real p inHook,
   pthread_cond_destroy real p inHook,
   pthread_cond_signal real p inHook,
   pthread_cond_broadcast real p inHook,
   pthread_cond_wait real p q inHook dur,
   pthread_cond_timedwait real p q inHook dur,
   pthread_rwlock_init real p inHook,
   pthread_rwlock_destroy real p inHook,
   pthread_rwlock_rdlock real p inHook dur,
   pthread_rwlock_tryrdlock real p inHook dur,
   pthread_rwlock_timedrdlock real p inHook dur,
   pthread_rwlock_wrlock real p inHook dur,
   pthread_rwlock_trywrlock real p inHook dur,
   pthread_rwlock_timedwrlock real p inHook dur,
   pthread_rwlock_unlock real p inHook,
   pthread_create real p inHook]

/-- Counterexample to claim C6 as stated: when the next-chain resolution
of `pthread_mutex_timedlock` failed (`real = none`), the wrapper does not
degrade to a pass-through that forwards the call — it invokes the null
function pointer (modelled as a crash) and returns no result at all.  (No
structure in `init_skeleton_key` records which symbols failed, either:
the raw lookup results are stored unchecked, skeletonkey.cpp:226-284.) -/
theorem resolver_miss_C6_counterexample :
    pthread_mutex_timedlock none 5 false 7 = WrapperOutcome.crash ∧
    (pthread_mutex_timedlock none 5 false 7).retVal = none ∧
    (pthread_mutex_timedlock none 5 false 7).logCalls = [] := by
  decide

/-- Claim C6 amended — Resolver-miss behaviour: a wrapper whose next-chain
symbol failed to resolve holds a null pointer and every call to it invokes
that null pointer (undefined behaviour, modelled as a crash), emitting no
event and returning no result, whatever the recursion flag; no record of
failed symbols is kept.  Wrappers whose symbols did resolve are unaffected
and return the real implementation's result. -/
theorem resolver_miss_C6 (ret : Int) (p q : Nat) (inHook : Bool) (dur : Nat) :
    allWrapperOutcomes none p q inHook dur = List.replicate 22 WrapperOutcome.crash ∧
    (allWrapperOutcomes (some ret) p q inHook dur).map WrapperOutcome.retVal =
      List.replicate 22 (some ret) := by
  constructor
  · rfl
  · cases inHook <;> rfl

/-- Claim C7 — Recursion guard: with the per-thread `in_hook` flag set on
entry, every resolved wrapper calls the real implementation directly and
returns its result with no event logged and the flag untouched; with the
flag clear, every wrapper returns the real result and leaves the flag
false again (set on entry, cleared on exit). -/
theorem recursion_guard_C7 (ret : Int) (p q : Nat) (dur : Nat) :
    allWrapperOutcomes (some ret) p q true dur =
      List.replicate 22 (WrapperOutcome.ok ret [] true) ∧
    (allWrapperOutcomes (some ret) p q false dur).map WrapperOutcome.retVal =
      List.replicate 22 (some ret) ∧
    (allWrapperOutcomes (some ret) p q false dur).map WrapperOutcome.hookAfter =
      List.replicate 22 (some false) :=
  ⟨rfl, rfl, rfl⟩

/-- Counterexample to claim C8 as stated: the wrappers log the
caller-supplied object pointer verbatim, so calling
`pthread_mutex_lock(NULL)` (argument 0, which the code never checks)
writes two events whose `ptr1` field is zero. -/
theorem ptr1_zero_C8_counterexample :
    (pthread_mutex_lock (some 0) 0 false 0).logCalls.map LogArgs.ptr1 = [0, 0] := by
  decide

/-- Claim C8 amended — `ptr1` equals the caller-supplied primary object
pointer in every event a wrapper logs; it is therefore nonzero for every
nonzero caller argument, but a null caller argument is logged as
`ptr1 = 0`. -/
theorem ptr1_nonzero_C8 (real : Option Int) (p q : Nat) (inHook : Bool) (dur : Nat)
    (hp : p ≠ 0) :
    (allWrapperOutcomes real p q inHook dur).all
      (fun o => o.logCalls.all (fun a => a.ptr1 != 0)) = true := by
  rcases real with _ | ret <;> cases inHook <;>
    simp [allWrapperOutcomes, pthread_mutex_init, pthread_mutex_destroy, pthread_mutex_lock,
      pthread_mutex_trylock, pthread_mutex_timedlock, pthread_mutex_unlock, pthread_cond_init,
      pthread_cond_destroy, pthread_cond_signal, pthread_cond_broadcast, pthread_cond_wait,
      pthread_cond_timedwait, pthread_rwlock_init, pthread_rwlock_destroy,
      pthread_rwlock_rdlock, pthread_rwlock_tryrdlock, pthread_rwlock_timedrdlock,
      pthread_rwlock_wrlock, pthread_rwlock_trywrlock, pthread_rwlock_timedwrlock,
      pthread_rwlock_unlock, pthread_create, wrapPlain, wrapTimed,
      WrapperOutcome.logCalls, hp]

/-- Witness for the amended C8 at a nonzero mutex pointer. -/
theorem ptr1_nonzero_C8_witness :
    (allWrapperOutcomes (some 1) 5 0 false 3).all
      (fun o => o.logCalls.all (fun a => a.ptr1 != 0)) = true :=
  ptr1_nonzero_C8 (some 1) 5 0 false 3 (by decide)

/-! ## EventLogger (skeletonkey.cpp:127-191)

`EventLogger::log` runs entirely inside the `write_mutex_` critical
section: it captures the stack, reads the monotonic clock, reads the tid,
serializes, appends and flushes before releasing the mutex.  The mutex
therefore imposes a total order on log calls; modelling an execution as
that sequence, each call carries the environment values (`LogEnv`) it
observed inside its critical section, and because the clock is monotonic
and read in this order, the timestamp sequence is non-decreasing. -/

structure LogEnv where
  timestamp : Nat
  tid : Nat
  stack : List Nat
deriving DecidableEq

structure LoggerState where
  initialized : Bool
  file : List Nat
deriving DecidableEq

/-- The record that `EventLogger::log` serializes from a call's arguments
and the environment values captured in its critical section
(skeletonkey.cpp:157-179): `uint32_t tid = syscall(...)` truncates to 32
bits, the kind is the enum's tag byte. -/
def mkEvent (a : LogArgs) (env : LogEnv) : Event :=
  ⟨env.timestamp, env.tid % 2 ^ 32, a.type.tag, a.ptr1, a.ptr2, a.result,
    a.duration_ns, env.stack⟩

/-- `EventLogger::log` (skeletonkey.cpp:152-183): bail out when not
initialized, otherwise serialize into the cleared scratch buffer and
append the bytes to the file. -/
def EventLogger.log (st : LoggerState) (a : LogArgs) (env : LogEnv) : LoggerState :=
  if st.initialized = false then st
  else ⟨st.initialized, st.file ++ serializeEvent (mkEvent a env)⟩

/-- A whole execution: the mutex-ordered sequence of log calls. -/
def runLogger (st : LoggerState) (calls : List (LogArgs × LogEnv)) : LoggerState :=
  calls.foldl (fun s c => EventLogger.log s c.1 c.2) st

/-- Machine-width bounds on a log call's arguments (they are C++ machine
integers: pointers and `uint64_t`/`int32_t` values). -/
def LogArgs.WF (a : LogArgs) : Prop :=
  a.ptr1 < 2 ^ 64 ∧ a.ptr2 < 2 ^ 64 ∧ -(2 : Int) ^ 31 ≤ a.result ∧ a.result < 2 ^ 31 ∧
    a.duration_ns < 2 ^ 64

/-- Machine-width bounds on the captured environment: the clock value fits
`uint64_t` and `backtrace` returns at most `MAX_STACK_DEPTH = 16` frames. -/
def LogEnv.WF (env : LogEnv) : Prop :=
  env.timestamp < 2 ^ 64 ∧ env.stack.length ≤ 16 ∧ ∀ p ∈ env.stack, p < 2 ^ 64

instance (a : LogArgs) : Decidable a.WF := by
  unfold LogArgs.WF
  infer_instance

instance (env : LogEnv) : Decidable env.WF := by
  unfold LogEnv.WF
  infer_instance

theorem EventType.tag_le (t : EventType) : t.tag ≤ 32 := by
  cases t <;> simp [EventType.tag]

theorem mkEvent_WF (a : LogArgs) (env : LogEnv) (ha : a.WF) (he : env.WF) :
    (mkEvent a env).WF := by
  obtain ⟨h1, h2, h3, h4, h5⟩ := ha
  obtain ⟨h6, h7, h8⟩ := he
  exact ⟨h6, Nat.mod_lt _ (by norm_num), EventType.tag_le a.type, h1, h2, h3, h4, h5, h7, h8⟩

theorem runLogger_file :
    ∀ (calls : List (LogArgs × LogEnv)) (file : List Nat),
      runLogger ⟨true, file⟩ calls =
        ⟨true, file ++ ((calls.map fun c => serializeEvent (mkEvent c.1 c.2)).flatten)⟩ := by
  intro calls
  induction calls with
  | nil =>
    intro file
    simp [runLogger]
  | cons c cs ih =>
    intro file
    have h1 : runLogger ⟨true, file⟩ (c :: cs) =
        runLogger (EventLogger.log ⟨true, file⟩ c.1 c.2) cs := rfl
    have h2 : EventLogger.log ⟨true, file⟩ c.1 c.2 =
        ⟨true, file ++ serializeEvent (mkEvent c.1 c.2)⟩ := by
      simp [EventLogger.log]
    rw [h1, h2, ih]
    simp [List.append_assoc]

/-- Claim C10 — Global file-order timestamp monotonicity: `log` reads the
monotonic clock only after acquiring the writer mutex and appends the
record before releasing it, so the file order of records is the order of
the clock reads.  For any mutex-ordered call sequence whose observed
clock values are non-decreasing (what a monotonic clock read under the
mutex guarantees), every pair of consecutive records decoded from the
trace file has non-decreasing timestamps, regardless of which threads
made the calls. -/
theorem timestamp_monotone_C10 (calls : List (LogArgs × LogEnv))
    (hwf : ∀ c ∈ calls, c.1.WF ∧ c.2.WF)
    (hmono : List.Chain' (· ≤ ·) (calls.map fun c => c.2.timestamp)) :
    List.Chain' (· ≤ ·)
      ((decodeTrace (runLogger ⟨true, []⟩ calls).file).map Event.timestamp) := by
  have hes : ∀ e ∈ calls.map (fun c => mkEvent c.1 c.2), e.WF := by
    intro e he
    rcases List.mem_map.mp he with ⟨c, hc, hce⟩
    exact hce ▸ mkEvent_WF c.1 c.2 (hwf c hc).1 (hwf c hc).2
  have hdec := decodeTrace_encodeTrace (calls.map fun c => mkEvent c.1 c.2) [] hes
  rw [List.append_nil] at hdec
  have hflat : ((calls.map fun c => mkEvent c.1 c.2).map serializeEvent).flatten =
      (calls.map fun c => serializeEvent (mkEvent c.1 c.2)).flatten := by
    rw [List.map_map]
    rfl
  rw [runLogger_file calls []]
  dsimp only
  rw [List.nil_append, ← hflat, hdec,
    show decodeTrace [] = ([] : List Event) from rfl, List.append_nil, List.map_map]
  exact hmono

/-- Witness for C10: two calls with increasing clock readings. -/
theorem timestamp_monotone_C10_witness :
    (∀ c ∈ [((LogArgs.mk EventType.MutexLock 5 0 0 0), (LogEnv.mk 10 7 [])),
            ((LogArgs.mk EventType.MutexLockDone 5 0 0 3), (LogEnv.mk 13 7 []))],
      c.1.WF ∧ c.2.WF) ∧
    List.Chain' (· ≤ ·)
      ((decodeTrace (runLogger ⟨true, []⟩
        [((LogArgs.mk EventType.MutexLock 5 0 0 0), (LogEnv.mk 10 7 [])),
         ((LogArgs.mk EventType.MutexLockDone 5 0 0 3), (LogEnv.mk 13 7 []))]).file).map
        Event.timestamp) :=
  ⟨by decide,
    timestamp_monotone_C10
      [((LogArgs.mk EventType.MutexLock 5 0 0 0), (LogEnv.mk 10 7 [])),
       ((LogArgs.mk EventType.MutexLockDone 5 0 0 3), (LogEnv.mk 13 7 []))]
      (by decide) (by norm_num [List.chain'_cons, List.chain'_singleton])⟩
